import Mathlib

/-!
Verification of the variable-star period-search and phase-folding pipeline
from the `07b_Variable_Star_Lightcurves` notebook.

The pipeline has three stages operating on in-memory photometric time series:
a per-band extractor (`pick`), a Lomb-Scargle period estimator whose peak
selection is `np.argmax` over the power array (`argmax`, `peakFreq`,
`mean_peak_freq`, `best_period`), and a phase folder
(`phaseFold`, computing `np.mod((t - t0) / P, 1.0)`).
Real-valued quantities are embedded as rationals; `np.mod x 1.0` is the
floor-based modulus `x - ⌊x⌋`.
-/

namespace VarStar

/-- The six photometric band labels (the `ugrizy` filters). -/
inductive Band : Type
  | u | g | r | i | z | y
deriving DecidableEq, Repr

/-- `plot_filter_labels = ['u', 'g', 'r', 'i', 'z', 'y']` from the notebook. -/
def plot_filter_labels : List Band := [.u, .g, .r, .i, .z, .y]

/-- A single photometric measurement, as retrieved from the ForcedSource /
CcdVisit join: an object identifier, a band label, an observation time
(`expMidptMJD`, in days) and a magnitude (`psfMag`). -/
structure Observation : Type where
  objectId : Nat
  band : Band
  time : ℚ
  mag : ℚ
deriving DecidableEq, Repr

/-- Per-band selection, `pick[filter] = (srcs['band'] == filter)`: the
observations whose `band` field matches the label exactly. -/
def pick (b : Band) (srcs : List Observation) : List Observation :=
  srcs.filter (fun s => s.band == b)

/-- The observation times of one band, `mjd_days[filter]`. -/
def mjd_of (b : Band) (srcs : List Observation) : List ℚ :=
  (pick b srcs).map (fun s => s.time)

/-- `np.min` over a nonempty array (0 on the empty list, which numpy rejects). -/
def npMin : List ℚ → ℚ
  | [] => 0
  | [x] => x
  | x :: y :: xs => min x (npMin (y :: xs))

/-- The default epoch of the folding pipeline,
`t0 = np.min(mjd_days['g'].value)`: the minimum time of the reference
(g) band's series. -/
def defaultEpoch (srcs : List Observation) : ℚ :=
  npMin (mjd_of .g srcs)

/-- `np.mod x 1.0`: numpy's floor-based modulus with modulus 1,
`x - 1.0 * np.floor(x / 1.0) = x - ⌊x⌋`. -/
def npMod1 (x : ℚ) : ℚ := x - ⌊x⌋

/-- The phase folder: `mjd_norm = (t - t0) / best_period` followed by
`phase = np.mod(mjd_norm, 1.0)`. -/
def phaseFold (P t0 t : ℚ) : ℚ := npMod1 ((t - t0) / P)

/-- `npMod1` is the fractional-part function. -/
theorem npMod1_eq_fract (x : ℚ) : npMod1 x = Int.fract x := rfl

/-- `np.argmax`: index of the first occurrence of the maximum of the array
(0 on the empty array). -/
def argmax : List ℚ → Nat
  | [] => 0
  | [_] => 0
  | x :: y :: xs =>
      if x < (y :: xs).getD (argmax (y :: xs)) 0 then argmax (y :: xs) + 1 else 0

/-- A periodogram for one series: parallel arrays of grid frequencies and
powers, as returned by `LombScargle(...).autopower`. -/
structure Periodogram : Type where
  freqs : List ℚ
  powers : List ℚ
deriving DecidableEq, Repr

/-- The frequency corresponding to the peak power,
`frequency[filter][peakbin]` with `peakbin = np.argmax(power[filter])`. -/
def peakFreq (pg : Periodogram) : ℚ :=
  pg.freqs.getD (argmax pg.powers) 0

/-- `np.mean`: the arithmetic mean, sum divided by length. -/
def npMean (l : List ℚ) : ℚ := l.sum / l.length

/-- `mean_peak_freq = np.mean(all_peak_freqs)` where `all_peak_freqs`
collects the peak frequency of each band's periodogram. -/
def mean_peak_freq (pgs : List Periodogram) : ℚ :=
  npMean (pgs.map peakFreq)

/-- `best_period = 1 / mean_peak_freq`. -/
def best_period (pgs : List Periodogram) : ℚ :=
  1 / mean_peak_freq pgs

/-- Written from the spec's words, for comparison with the code: the
consensus frequency is the arithmetic mean of the per-band best
(argmax-power) frequencies, and the consensus period is its reciprocal. -/
def spec_consensusFreq (pgs : List Periodogram) : ℚ :=
  (pgs.map peakFreq).sum / (pgs.map peakFreq).length

/-- Written from the spec's words: consensus period = 1 / mean(frequencies). -/
def spec_consensusPeriod (pgs : List Periodogram) : ℚ :=
  1 / spec_consensusFreq pgs

/-- Errors of the analysis core named by the spec. -/
inductive EstimatorError : Type
  | insufficientData
  | invalidPeriod
  | degenerateSeries
deriving DecidableEq, Repr

/-- Modelled from the spec: the Period Estimator contract of §4.2. The
repository delegates the periodogram computation itself to the external
astropy `LombScargle` library, so that computation is abstracted as the
argument `ls`; what the spec adds — `len(series) ≥ 2` is required, and
fewer points signal an `InsufficientDataError` instead of fabricating a
period — is modelled here. On sufficient data the best frequency is the
argmax-power grid frequency and the period its reciprocal. -/
def periodEstimator (ls : List ℚ → List ℚ → Periodogram)
    (times mags : List ℚ) : Except EstimatorError ℚ :=
  if times.length < 2 then .error .insufficientData
  else .ok (1 / peakFreq (ls times mags))

/-- Per-object summary statistics from the DiaObject table used by the
candidate selection query: mean and scatter of the total flux
(`gTOTFluxMean`, `gTOTFluxSigma`), the derived magnitude
(`scisql_nanojanskyToAbMag(gTOTFluxMean)`), the number of detections
(`gPSFluxNdata`), the StetsonJ variability statistic
(`gPSFluxStetsonJ`) and the angular distance to the reference
coordinate. -/
structure DiaObject : Type where
  fluxMean : ℚ
  fluxSigma : ℚ
  mag : ℚ
  nData : ℤ
  stetsonJ : ℚ
  dist : ℚ
deriving DecidableEq, Repr

/-- The named threshold configuration of the Candidate Filter. -/
structure FilterConfig : Type where
  ratioLo : ℚ
  ratioHi : ℚ
  magLo : ℚ
  magHi : ℚ
  minCount : ℤ
  minVar : ℚ
  radius : ℚ
deriving DecidableEq, Repr

/-- The default thresholds of the notebook's DiaObject query:
ratio band 0.25–1.25, magnitude range 18–23, `minCount = 30`,
`minVariabilityStatistic = 20`, radius 5 degrees. -/
def defaultConfig : FilterConfig :=
  ⟨1/4, 5/4, 18, 23, 30, 20, 5⟩

/-- The Candidate Filter: the WHERE clause of the DiaObject query.
`gTOTFluxSigma/gTOTFluxMean > 0.25 AND gTOTFluxSigma/gTOTFluxMean < 1.25
AND mag > 18 AND mag < 23 AND gPSFluxNdata > 30 AND gPSFluxStetsonJ > 20
AND CONTAINS(POINT(ra, decl), CIRCLE(ref, 5.0)) = 1`. -/
def candidateFilter (c : FilterConfig) (o : DiaObject) : Bool :=
  (c.ratioLo < o.fluxSigma / o.fluxMean) &&
  (o.fluxSigma / o.fluxMean < c.ratioHi) &&
  (c.magLo < o.mag) &&
  (o.mag < c.magHi) &&
  (c.minCount < o.nData) &&
  (c.minVar < o.stetsonJ) &&
  (o.dist ≤ c.radius)

/-- Pointwise loosening of the filter configuration: every lower bound is
lowered or kept and every upper bound is raised or kept. Loosening a
single threshold is the special case where the other components are
equal. -/
def looser (c₁ c₂ : FilterConfig) : Prop :=
  c₂.ratioLo ≤ c₁.ratioLo ∧ c₁.ratioHi ≤ c₂.ratioHi ∧
  c₂.magLo ≤ c₁.magLo ∧ c₁.magHi ≤ c₂.magHi ∧
  c₂.minCount ≤ c₁.minCount ∧ c₂.minVar ≤ c₁.minVar ∧
  c₁.radius ≤ c₂.radius

/-! ### Helper lemmas about `argmax` and `npMin` -/

theorem argmax_lt_length : ∀ (l : List ℚ), l ≠ [] → argmax l < l.length
  | [_], _ => by simp [argmax]
  | x :: y :: xs, _ => by
    simp only [argmax]
    split
    · have h := argmax_lt_length (y :: xs) (by simp)
      simpa using Nat.succ_lt_succ h
    · simp

theorem le_getD_argmax :
    ∀ (l : List ℚ), ∀ j, j < l.length → l.getD j 0 ≤ l.getD (argmax l) 0
  | [x], j, hj => by
    have hj0 : j = 0 := by simpa using Nat.lt_one_iff.mp (by simpa using hj)
    subst hj0
    simp [argmax]
  | x :: y :: xs, j, hj => by
    simp only [argmax]
    split
    · rename_i hlt
      cases j with
      | zero => simpa using le_of_lt hlt
      | succ j =>
        have hj2 : j < (y :: xs).length := by simpa using hj
        simpa using le_getD_argmax (y :: xs) j hj2
    · rename_i hge
      cases j with
      | zero => simp
      | succ j =>
        have hj2 : j < (y :: xs).length := by simpa using hj
        have h1 := le_getD_argmax (y :: xs) j hj2
        have h2 := le_of_not_lt hge
        simpa using le_trans h1 h2

theorem argmax_le_of_le_getD :
    ∀ (l : List ℚ), ∀ j, j < l.length →
      l.getD (argmax l) 0 ≤ l.getD j 0 → argmax l ≤ j
  | [_], _, _, _ => by simp [argmax]
  | x :: y :: xs, j, hj, hle => by
    simp only [argmax] at hle ⊢
    split
    · rename_i hlt
      rw [if_pos hlt] at hle
      cases j with
      | zero =>
        exact absurd (lt_of_lt_of_le hlt (by simpa using hle)) (lt_irrefl x)
      | succ j =>
        have hj2 : j < (y :: xs).length := by simpa using hj
        have := argmax_le_of_le_getD (y :: xs) j hj2 (by simpa using hle)
        omega
    · exact Nat.zero_le j

theorem npMin_mem : ∀ (l : List ℚ), l ≠ [] → npMin l ∈ l
  | [x], _ => by simp [npMin]
  | x :: y :: xs, _ => by
    simp only [npMin]
    rcases le_total x (npMin (y :: xs)) with h | h
    · simp [min_eq_left h]
    · have hmem := npMin_mem (y :: xs) (by simp)
      rw [min_eq_right h]
      exact List.mem_cons_of_mem x hmem

theorem npMin_le : ∀ (l : List ℚ), ∀ x ∈ l, npMin l ≤ x
  | [y], x, hx => by
    have : x = y := by simpa using hx
    simp [npMin, this]
  | a :: y :: xs, x, hx => by
    simp only [npMin]
    rcases List.mem_cons.mp hx with h | h
    · exact h ▸ min_le_left _ _
    · exact le_trans (min_le_right _ _) (npMin_le (y :: xs) x h)

/-! ### Claim theorems -/

/-- C1: for every period `P > 0`, epoch `t0` and observation time `t`
(including `t < t0`), the phase `np.mod((t - t0) / P, 1.0)` computed by the
phase folder satisfies `0 ≤ phase < 1`: the floor-based modulus is never
negative. -/
theorem phaseFold_mem_Ico (P t0 t : ℚ) (hP : 0 < P) :
    0 ≤ phaseFold P t0 t ∧ phaseFold P t0 t < 1 := by
  unfold phaseFold
  rw [npMod1_eq_fract]
  exact ⟨Int.fract_nonneg _, Int.fract_lt_one _⟩

/-- Witness for C1 at `P = 2`, `t0 = 5`, `t = 3` (a time before the epoch). -/
theorem phaseFold_mem_Ico_witness :
    (0 : ℚ) < 2 ∧ (0 ≤ phaseFold 2 5 3 ∧ phaseFold 2 5 3 < 1) :=
  ⟨by norm_num, phaseFold_mem_Ico 2 5 3 (by norm_num)⟩

/-- C6: phase folding is periodic — for every period `P > 0`, epoch `t0`,
time `t` and integer `k`, folding `t + k·P` yields the same phase as
folding `t`. -/
theorem phaseFold_periodic (P t0 t : ℚ) (k : ℤ) (hP : 0 < P) :
    phaseFold P t0 (t + k * P) = phaseFold P t0 t := by
  unfold phaseFold
  rw [npMod1_eq_fract, npMod1_eq_fract]
  have hP0 : P ≠ 0 := ne_of_gt hP
  have harg : (t + k * P - t0) / P = (t - t0) / P + k := by
    field_simp
    ring
  rw [harg, Int.fract_add_int]

/-- Witness for C6 at `P = 2`, `t0 = 5`, `t = 3`, `k = -4`. -/
theorem phaseFold_periodic_witness :
    (0 : ℚ) < 2 ∧
      phaseFold 2 5 (3 + ((-4 : ℤ) : ℚ) * 2) = phaseFold 2 5 3 :=
  ⟨by norm_num, phaseFold_periodic 2 5 3 (-4) (by norm_num)⟩

/-- C2: invoking the Period Estimator on a series with fewer than two
points signals `InsufficientDataError` instead of returning a period. -/
theorem periodEstimator_insufficientData
    (ls : List ℚ → List ℚ → Periodogram) (times mags : List ℚ)
    (h : times.length < 2) :
    periodEstimator ls times mags = .error .insufficientData := by
  unfold periodEstimator
  simp [h]

/-- Witness for C2: a series with exactly one observation. -/
theorem periodEstimator_insufficientData_witness :
    [(3 : ℚ)].length < 2 ∧
      periodEstimator (fun _ _ => ⟨[], []⟩) [(3 : ℚ)] [(17 : ℚ)] =
        .error .insufficientData :=
  ⟨by simp, periodEstimator_insufficientData _ _ _ (by simp)⟩

/-- C3: the multi-band estimator reports as consensus frequency the
arithmetic mean of the per-band best frequencies and as consensus period the
reciprocal of that mean, where each band's best frequency sits at a bin of
maximal power (`peakbin = np.argmax(power)`). -/
theorem best_period_consensus (pgs : List Periodogram) :
    mean_peak_freq pgs = spec_consensusFreq pgs ∧
    best_period pgs = spec_consensusPeriod pgs ∧
    ∀ pg ∈ pgs, ∀ j, j < pg.powers.length →
      pg.powers.getD j 0 ≤ pg.powers.getD (argmax pg.powers) 0 := by
  refine ⟨rfl, rfl, ?_⟩
  intro pg _ j hj
  exact le_getD_argmax pg.powers j hj

/-- Witness for C3 on a two-band object. -/
theorem best_period_consensus_witness :
    mean_peak_freq [⟨[1, 2], [3, 5]⟩, ⟨[1, 2], [4, 1]⟩] =
      spec_consensusFreq [⟨[1, 2], [3, 5]⟩, ⟨[1, 2], [4, 1]⟩] ∧
    best_period [⟨[1, 2], [3, 5]⟩, ⟨[1, 2], [4, 1]⟩] =
      spec_consensusPeriod [⟨[1, 2], [3, 5]⟩, ⟨[1, 2], [4, 1]⟩] ∧
    (Periodogram.mk [1, 2] [3, 5]).powers.getD 0 0 ≤
      (Periodogram.mk [1, 2] [3, 5]).powers.getD
        (argmax (Periodogram.mk [1, 2] [3, 5]).powers) 0 :=
  ⟨(best_period_consensus [⟨[1, 2], [3, 5]⟩, ⟨[1, 2], [4, 1]⟩]).1,
   (best_period_consensus [⟨[1, 2], [3, 5]⟩, ⟨[1, 2], [4, 1]⟩]).2.1,
   (best_period_consensus [⟨[1, 2], [3, 5]⟩, ⟨[1, 2], [4, 1]⟩]).2.2
     ⟨[1, 2], [3, 5]⟩ (by simp) 0 (by simp)⟩

/-- C4 counterexample: with the default thresholds, an object whose
detection count is exactly 30 (all other criteria met) is rejected, and so
is one whose StetsonJ statistic is exactly 20 — the WHERE clause uses
strict `>`, so the boundary values do not satisfy the criteria, contrary
to the claim's inclusive reading. -/
theorem candidateFilter_boundary_counterexample :
    candidateFilter defaultConfig ⟨1, 1/2, 19, 30, 25, 0⟩ = false ∧
    candidateFilter defaultConfig ⟨1, 1/2, 19, 40, 20, 0⟩ = false := by
  constructor <;> norm_num [candidateFilter, defaultConfig]

/-- C4 amended: with default thresholds the lower-bound criteria are
strict (exclusive): selection requires `N > 30` and `V > 20`, and an
object with `N = 30` or with `V = 20` is rejected. -/
theorem candidateFilter_default_strict_bounds (o : DiaObject)
    (hsel : candidateFilter defaultConfig o = true) :
    (30 < o.nData ∧ 20 < o.stetsonJ) ∧
    o.nData ≠ 30 ∧ o.stetsonJ ≠ 20 := by
  simp only [candidateFilter, defaultConfig, Bool.and_eq_true,
    decide_eq_true_eq] at hsel
  obtain ⟨⟨⟨⟨⟨⟨h1, h2⟩, h3⟩, h4⟩, h5⟩, h6⟩, h7⟩ := hsel
  refine ⟨⟨h5, h6⟩, ?_, ?_⟩
  · intro he
    rw [he] at h5
    exact lt_irrefl _ h5
  · intro he
    rw [he] at h6
    exact lt_irrefl _ h6

/-- Witness for the amended C4 at an object with `N = 31`, `V = 25`. -/
theorem candidateFilter_default_strict_bounds_witness :
    candidateFilter defaultConfig ⟨1, 1/2, 19, 31, 25, 0⟩ = true ∧
    ((30 < (31 : ℤ) ∧ (20 : ℚ) < 25) ∧ (31 : ℤ) ≠ 30 ∧ (25 : ℚ) ≠ 20) :=
  ⟨by norm_num [candidateFilter, defaultConfig],
   candidateFilter_default_strict_bounds ⟨1, 1/2, 19, 31, 25, 0⟩
     (by norm_num [candidateFilter, defaultConfig])⟩

/-- C5: the Candidate Filter is a pure predicate, monotonic under loosening
of its thresholds — an object selected under a stricter configuration is
selected under any pointwise looser one (single-threshold loosening is the
special case) — and order-independent: filtering permuted inputs yields
permuted outputs. -/
theorem candidateFilter_monotone_orderIndependent :
    (∀ c₁ c₂ o, looser c₁ c₂ →
      candidateFilter c₁ o = true → candidateFilter c₂ o = true) ∧
    (∀ c (l₁ l₂ : List DiaObject), l₁.Perm l₂ →
      (l₁.filter (candidateFilter c)).Perm (l₂.filter (candidateFilter c))) := by
  constructor
  · intro c₁ c₂ o hl h
    obtain ⟨a1, a2, a3, a4, a5, a6, a7⟩ := hl
    simp only [candidateFilter, Bool.and_eq_true, decide_eq_true_eq] at h ⊢
    obtain ⟨⟨⟨⟨⟨⟨h1, h2⟩, h3⟩, h4⟩, h5⟩, h6⟩, h7⟩ := h
    exact ⟨⟨⟨⟨⟨⟨lt_of_le_of_lt a1 h1, lt_of_lt_of_le h2 a2⟩,
      lt_of_le_of_lt a3 h3⟩, lt_of_lt_of_le h4 a4⟩,
      lt_of_le_of_lt a5 h5⟩, lt_of_le_of_lt a6 h6⟩, le_trans h7 a7⟩
  · intro c l₁ l₂ hp
    exact hp.filter _

/-- Witness for C5: lowering `minCount` from 30 to 29 keeps a selected
object selected; filtering a permuted singleton list permutes the output. -/
theorem candidateFilter_monotone_orderIndependent_witness :
    candidateFilter ⟨1/4, 5/4, 18, 23, 29, 20, 5⟩ ⟨1, 1/2, 19, 40, 25, 0⟩ = true ∧
    (([⟨1, 1/2, 19, 40, 25, 0⟩] :
        List DiaObject).filter (candidateFilter defaultConfig)).Perm
      (([⟨1, 1/2, 19, 40, 25, 0⟩] :
        List DiaObject).filter (candidateFilter defaultConfig)) :=
  ⟨candidateFilter_monotone_orderIndependent.1 defaultConfig
      ⟨1/4, 5/4, 18, 23, 29, 20, 5⟩ ⟨1, 1/2, 19, 40, 25, 0⟩
      (by norm_num [looser, defaultConfig])
      (by norm_num [candidateFilter, defaultConfig]),
   candidateFilter_monotone_orderIndependent.2 defaultConfig _ _
      (List.Perm.refl _)⟩

/-- C7: on a strictly increasing frequency grid, the estimator's peak
selection keeps the first occurrence of the maximum power, so whenever the
maximum is attained at more than one bin the selected frequency is the
lowest (longest-period) one: it is `≤` the frequency of every bin attaining
the maximum, and every bin's power is `≤` the selected bin's power. -/
theorem peakFreq_tie_lowest (pg : Periodogram)
    (hsort : pg.freqs.Sorted (· < ·))
    (hlen : pg.powers.length = pg.freqs.length)
    (j : Nat) (hj : j < pg.powers.length)
    (hmax : pg.powers.getD (argmax pg.powers) 0 ≤ pg.powers.getD j 0) :
    peakFreq pg ≤ pg.freqs.getD j 0 ∧
    ∀ i, i < pg.powers.length →
      pg.powers.getD i 0 ≤ pg.powers.getD (argmax pg.powers) 0 := by
  refine ⟨?_, fun i hi => le_getD_argmax pg.powers i hi⟩
  have hle : argmax pg.powers ≤ j := argmax_le_of_le_getD pg.powers j hj hmax
  rcases lt_or_eq_of_le hle with hlt | heq
  · have hjf : j < pg.freqs.length := hlen ▸ hj
    have haf : argmax pg.powers < pg.freqs.length := lt_trans hlt hjf
    unfold peakFreq
    rw [List.getD_eq_get _ _ haf, List.getD_eq_get _ _ hjf]
    exact le_of_lt (List.Sorted.rel_get_of_lt hsort hlt)
  · unfold peakFreq
    rw [heq]

/-- Witness for C7: grid `[1, 2, 3]`, powers `[5, 2, 5]` — the maximum is
attained at bins 0 and 2 and the selected frequency is the lowest one. -/
theorem peakFreq_tie_lowest_witness :
    peakFreq ⟨[1, 2, 3], [5, 2, 5]⟩ ≤ List.getD [(1 : ℚ), 2, 3] 2 0 ∧
    List.getD [(5 : ℚ), 2, 5] 1 0 ≤
      List.getD [(5 : ℚ), 2, 5] (argmax [(5 : ℚ), 2, 5]) 0 :=
  ⟨(peakFreq_tie_lowest ⟨[1, 2, 3], [5, 2, 5]⟩
      (by norm_num [List.sorted_cons]) rfl 2 (by norm_num)
      (by norm_num [argmax])).1,
   (peakFreq_tie_lowest ⟨[1, 2, 3], [5, 2, 5]⟩
      (by norm_num [List.sorted_cons]) rfl 2 (by norm_num)
      (by norm_num [argmax])).2 1 (by norm_num)⟩

/-- C8: the per-band partitions `pick[filter]` are disjoint — an observation
in two band partitions forces the two band labels to be equal, since
membership is exact match on the `band` field — and complete: the per-band
observation counts over the six `ugrizy` labels sum to the input count. -/
theorem pick_partition (srcs : List Observation) :
    (∀ b₁ b₂ o, o ∈ pick b₁ srcs → o ∈ pick b₂ srcs → b₁ = b₂) ∧
    (plot_filter_labels.map fun b => (pick b srcs).length).sum = srcs.length := by
  constructor
  · intro b₁ b₂ o h₁ h₂
    have e₁ : o.band = b₁ := by simpa using (List.mem_filter.mp h₁).2
    have e₂ : o.band = b₂ := by simpa using (List.mem_filter.mp h₂).2
    rw [← e₁, ← e₂]
  · induction srcs with
    | nil => rfl
    | cons s l ih =>
      simp only [plot_filter_labels, List.map_cons, List.map_nil,
        List.sum_cons, List.sum_nil] at ih ⊢
      have hcons : ∀ b : Band, (pick b (s :: l)).length =
          (if s.band = b then 1 else 0) + (pick b l).length := by
        intro b
        by_cases h : s.band = b
        · simp [pick, List.filter_cons, h]
          omega
        · simp [pick, List.filter_cons, h]
      rw [hcons .u, hcons .g, hcons .r, hcons .i, hcons .z, hcons .y]
      cases s.band <;> simp <;> omega

/-- Witness for C8 on a one-observation input in the g band. -/
theorem pick_partition_witness :
    Band.g = Band.g ∧
    (plot_filter_labels.map fun b =>
      (pick b [⟨7, .g, 3, 5⟩]).length).sum =
      [(⟨7, .g, 3, 5⟩ : Observation)].length :=
  ⟨(pick_partition [⟨7, .g, 3, 5⟩]).1 .g .g ⟨7, .g, 3, 5⟩
      (List.mem_filter.mpr ⟨List.mem_singleton_self _, rfl⟩)
      (List.mem_filter.mpr ⟨List.mem_singleton_self _, rfl⟩),
   (pick_partition [⟨7, .g, 3, 5⟩]).2⟩

/-- C9: when no epoch is supplied the folding pipeline uses
`t0 = np.min(mjd_days['g'].value)`: the default epoch is the minimum
observation time of the reference (g) band's series — it belongs to that
series' times and bounds every one of them from below. -/
theorem defaultEpoch_is_min (srcs : List Observation)
    (h : mjd_of .g srcs ≠ []) :
    defaultEpoch srcs ∈ mjd_of .g srcs ∧
    ∀ t ∈ mjd_of .g srcs, defaultEpoch srcs ≤ t :=
  ⟨npMin_mem _ h, fun t ht => npMin_le _ t ht⟩

/-- Witness for C9: g-band times `[7, 4]` (plus a u-band observation). -/
theorem defaultEpoch_is_min_witness :
    defaultEpoch [⟨1, .g, 7, 9⟩, ⟨1, .u, 1, 2⟩, ⟨1, .g, 4, 8⟩] ∈
      mjd_of .g [⟨1, .g, 7, 9⟩, ⟨1, .u, 1, 2⟩, ⟨1, .g, 4, 8⟩] ∧
    defaultEpoch [⟨1, .g, 7, 9⟩, ⟨1, .u, 1, 2⟩, ⟨1, .g, 4, 8⟩] ≤ 7 :=
  ⟨(defaultEpoch_is_min [⟨1, .g, 7, 9⟩, ⟨1, .u, 1, 2⟩, ⟨1, .g, 4, 8⟩]
      (by simp [mjd_of, pick])).1,
   (defaultEpoch_is_min [⟨1, .g, 7, 9⟩, ⟨1, .u, 1, 2⟩, ⟨1, .g, 4, 8⟩]
      (by simp [mjd_of, pick])).2 7 (by simp [mjd_of, pick])⟩

/-- C10: when every band's best frequency lies in the bounded search grid
`[1/max_period, 1/min_period]` with `0 < min_period ≤ max_period`, the
consensus period `1 / mean(best frequencies)` is strictly positive and lies
in `[min_period, max_period]`. -/
theorem best_period_in_search_range (pgs : List Periodogram) (minP maxP : ℚ)
    (hne : pgs ≠ []) (h0 : 0 < minP) (hpm : minP ≤ maxP)
    (hf : ∀ pg ∈ pgs, 1 / maxP ≤ peakFreq pg ∧ peakFreq pg ≤ 1 / minP) :
    0 < best_period pgs ∧ minP ≤ best_period pgs ∧ best_period pgs ≤ maxP := by
  have hmaxP : 0 < maxP := lt_of_lt_of_le h0 hpm
  have hlo : 0 < 1 / maxP := by positivity
  have hlne : pgs.map peakFreq ≠ [] := by
    simpa using hne
  have hn : 0 < ((pgs.map peakFreq).length : ℚ) := by
    exact_mod_cast List.length_pos.mpr hlne
  have hub : ∀ x ∈ pgs.map peakFreq, x ≤ 1 / minP := by
    intro x hx
    obtain ⟨pg, hpg, rfl⟩ := List.mem_map.mp hx
    exact (hf pg hpg).2
  have hlb : ∀ x ∈ pgs.map peakFreq, 1 / maxP ≤ x := by
    intro x hx
    obtain ⟨pg, hpg, rfl⟩ := List.mem_map.mp hx
    exact (hf pg hpg).1
  have hsum_ub : (pgs.map peakFreq).sum ≤
      ((pgs.map peakFreq).length : ℚ) * (1 / minP) := by
    simpa [nsmul_eq_mul] using
      List.sum_le_card_nsmul (pgs.map peakFreq) (1 / minP) hub
  have hsum_lb : ((pgs.map peakFreq).length : ℚ) * (1 / maxP) ≤
      (pgs.map peakFreq).sum := by
    simpa [nsmul_eq_mul] using
      List.card_nsmul_le_sum (pgs.map peakFreq) (1 / maxP) hlb
  have hmean_def : mean_peak_freq pgs =
      (pgs.map peakFreq).sum / ((pgs.map peakFreq).length : ℚ) := rfl
  have hmean_lb : 1 / maxP ≤ mean_peak_freq pgs := by
    rw [hmean_def, le_div_iff hn]
    linarith [hsum_lb]
  have hmean_ub : mean_peak_freq pgs ≤ 1 / minP := by
    rw [hmean_def, div_le_iff hn]
    linarith [hsum_ub]
  have hmean_pos : 0 < mean_peak_freq pgs := lt_of_lt_of_le hlo hmean_lb
  refine ⟨one_div_pos.mpr hmean_pos, ?_, ?_⟩
  · have h1 := one_div_le_one_div_of_le hmean_pos hmean_ub
    rwa [one_div_one_div] at h1
  · have h1 := one_div_le_one_div_of_le hlo hmean_lb
    rwa [one_div_one_div] at h1

/-- Witness for C10 at a single band with grid `[1]`, search range
`[min_period, max_period] = [1, 1]`. -/
theorem best_period_in_search_range_witness :
    (0 : ℚ) < 1 ∧
    (0 < best_period [⟨[1], [1]⟩] ∧ 1 ≤ best_period [⟨[1], [1]⟩] ∧
      best_period [⟨[1], [1]⟩] ≤ 1) :=
  ⟨by norm_num,
   best_period_in_search_range [⟨[1], [1]⟩] 1 1 (by simp) (by norm_num)
     (by norm_num)
     (by
       intro pg hpg
       simp only [List.mem_singleton] at hpg
       subst hpg
       norm_num [peakFreq, argmax])⟩

end VarStar
